import Mathlib

/-!
Verification of the biolib sequence toolkit (biolib.hpp).

Sequences (`std::string`-derived `Strand`, `DNA`, `RNA`, `Protein`) are
embedded as `List Char`.  Functions that can hit undefined behaviour in the
C++ source (falling off the `complement` switch, dereferencing a
past-the-end iterator in `Strand::Distance`) are embedded with an `Option`
codomain where `none` marks the undefined access; functions that throw
(`FASTA::Read`) return `Except`.
-/

namespace bio

/-- Embeds `bio::contains`: `std::find` over the range, true iff found. -/
def contains (range : List Char) (value : Char) : Bool :=
  range.any (fun c => c == value)

/-- Embeds `bio::is_valid`: every character of `str` is in `alphabet`. -/
def is_valid (str alphabet : List Char) : Bool :=
  str.all (fun c => contains alphabet c)

/-- The `DNA::alphabet` char array "ACGT"; as a C array of 5 chars it also
contains the trailing NUL character. -/
def dnaAlphabet : List Char := ['A', 'C', 'G', 'T', Char.ofNat 0]

/-- The `RNA::alphabet` char array "ACGU", with its trailing NUL. -/
def rnaAlphabet : List Char := ['A', 'C', 'G', 'U', Char.ofNat 0]

/-- Embeds `bio::complement`.  The C++ `switch` has no default case and the
function falls off the end for characters outside ACGT (undefined
behaviour), embedded here as `none`. -/
def complement (c : Char) : Option Char :=
  if c = 'A' then some 'T'
  else if c = 'C' then some 'G'
  else if c = 'G' then some 'C'
  else if c = 'T' then some 'A'
  else none

/-- One step of the loop body of `bio::fibonacci`:
`j = bool(i & 1); sum[j] = a * sum[j] + b * sum[!j]` on the pair
`(sum[0], sum[1])`. -/
def fibStep (a b : Int) (s : Int × Int) (i : Nat) : Int × Int :=
  if i % 2 = 1 then (s.1, a * s.2 + b * s.1) else (a * s.1 + b * s.2, s.2)

/-- Embeds `bio::fibonacci(n, a, b)`: `sum[2] = {1, 1}`, the loop runs over
`py::range(3, n + 1)` (i.e. i = 3..n), and the result is `sum[n & 1]`.
The C++ `long` arithmetic is modelled on unbounded `Int` (the inputs the
claims use stay far below any overflow). -/
def fibonacci (n : Nat) (a b : Int) : Int :=
  let s := (List.range' 3 (n + 1 - 3)).foldl (fibStep a b) (1, 1)
  if n % 2 = 1 then s.2 else s.1

/-- Embeds the loop of `Strand::Distance`.  The iterator `i` walks `other`
while the range-for walks `self`; each iteration first dereferences `*i`
and then breaks once `++i` reaches `end(other)`.  When `other` is already
exhausted at the dereference (only possible when `other` started empty),
the C++ reads past the end of the string: embedded as `none`. -/
def DistanceLoop : List Char → List Char → Nat → Option Nat
  | [], _, res => some res
  | _ :: _, [], _ => none
  | c :: cs, o :: os, res =>
    let res' := res + (if c ≠ o then 1 else 0)
    if os.isEmpty then some res' else DistanceLoop cs os res'

/-- Embeds `Strand::Distance(other)`: `res = 0; i = begin(other);` then the
loop above. -/
def Distance (self other : List Char) : Option Nat :=
  DistanceLoop self other 0

/-- The count of `std::count_if(begin(), end(), is_gc)` in
`Strand::ContentGC`. -/
def countGC (s : List Char) : Nat :=
  s.countP (fun c => c == 'G' || c == 'C')

/-- Embeds `Strand::ContentGC`: `float(count) / length()`.  The body has no
branch and no throw, so the embedding always returns `.ok`; the float
quotient is idealized as the rational `count / length`, and the unguarded
`0/0` on an empty strand (a silent NaN in C++) becomes the junk value `0`
of rational division by zero, still wrapped in `.ok`. -/
def ContentGC (s : List Char) : Except String ℚ :=
  .ok ((countGC s : ℚ) / (s.length : ℚ))

/-- Embeds the constructor `DNA::DNA(RNA const&)`:
`std::replace(begin, end, 'U', 'T')` on a copy of the argument. -/
def DNA_ofRNA (other : List Char) : List Char :=
  other.map (fun c => if c = 'U' then 'T' else c)

/-- Embeds the constructor `RNA::RNA(DNA const&)`:
`std::replace(begin, end, 'T', 'U')` on a copy of the argument. -/
def RNA_ofDNA (other : List Char) : List Char :=
  other.map (fun c => if c = 'T' then 'U' else c)

/-- The `std::transform` + `std::back_inserter` loop of `DNA::Complement`,
applied to the already-reversed character list: each complement is appended
in order; a character on which `complement` is undefined poisons the whole
result (`none`). -/
def mapComplement : List Char → Option (List Char)
  | [] => some []
  | c :: cs =>
    match complement c, mapComplement cs with
    | some d, some ds => some (d :: ds)
    | _, _ => none

/-- Embeds `DNA::Complement()`: transform the strand from `rbegin` to
`rend` through `complement`, appending to a fresh DNA. -/
def Complement (self : List Char) : Option (List Char) :=
  mapComplement self.reverse

/-- A FASTA record: the `id` and `sequence` string members of `bio::FASTA`. -/
structure FASTA where
  id : List Char
  sequence : List Char
deriving DecidableEq

/-- `std::getline`: the characters up to (excluding) the first newline, and
the rest of the stream after that newline; a stream without a newline is
consumed whole. -/
def getline : List Char → List Char × List Char
  | [] => ([], [])
  | c :: cs =>
    if c = '\n' then ([], cs)
    else
      let p := getline cs
      (c :: p.1, p.2)

/-- Embeds the read loop of `FASTA::Read`:
`for (char c; (c = stream.peek()) != '>' && c != EOF; sequence += s)
std::getline(stream, s);` — `seq` is the `sequence` member being appended
to; the function returns the final `sequence` and the unconsumed rest of
the stream (EOF embedded as the empty list). -/
def readLoop (stream seq : List Char) : List Char × List Char :=
  match stream with
  | [] => (seq, [])
  | c :: cs =>
    if c = '>' then (seq, c :: cs)
    else readLoop (getline (c :: cs)).2 (seq ++ (getline (c :: cs)).1)
termination_by stream.length
decreasing_by
  have hle : ∀ l : List Char, (getline l).2.length ≤ l.length := by
    intro l
    induction l with
    | nil => simp [getline]
    | cons a as ih =>
      simp only [getline]
      split
      · simp
      · simpa using Nat.le_succ_of_le ih
  simp only [getline]
  split
  · simp
  · simpa using Nat.lt_succ_of_le (hle cs)

/-- Embeds `FASTA::Read(stream)`: if the peeked first character is not `>`
(this includes EOF) it throws `std::domain_error("Not FASTA format")`
before touching `id` or `sequence`; otherwise it consumes the `>`, reads
the rest of the line into `id`, and runs the read loop appending to the
current `sequence`.  Returns the updated record and the unconsumed rest of
the stream. -/
def FASTA.Read (record : FASTA) (stream : List Char) :
    Except String (FASTA × List Char) :=
  match stream with
  | [] => .error "Not FASTA format"
  | c :: cs =>
    if c = '>' then
      let p := getline cs
      let q := readLoop p.2 record.sequence
      .ok ({ id := p.1, sequence := q.1 }, q.2)
    else .error "Not FASTA format"

/-- Spec-side rendering of the claim's sentence for the read loop: collect
whole lines until the next line starting with `>` (left unconsumed) or the
end of the stream, and return their concatenation plus the rest.  Used
only to state the refinement in C4. -/
def collectLines (stream : List Char) : List Char × List Char :=
  match stream with
  | [] => ([], [])
  | c :: cs =>
    if c = '>' then ([], c :: cs)
    else
      let p := getline (c :: cs)
      let q := collectLines p.2
      (p.1 ++ q.1, q.2)
termination_by stream.length
decreasing_by
  have hle : ∀ l : List Char, (getline l).2.length ≤ l.length := by
    intro l
    induction l with
    | nil => simp [getline]
    | cons a as ih =>
      simp only [getline]
      split
      · simp
      · simpa using Nat.le_succ_of_le ih
  simp only [getline]
  split
  · simp
  · simpa using Nat.lt_succ_of_le (hle cs)

/-- Embeds the constructor `Protein::Protein(RNA const&)`.  The codon
table is declared in the source but the translation loop is an explicit
`TODO`: the only statement executed is `auto silence_warning =
mRNA.IsValid();` whose result is discarded, so the protein string member
keeps its default (empty) value. -/
def Protein_ofRNA (mRNA : List Char) : List Char :=
  let _silence_warning := is_valid mRNA rnaAlphabet
  []

/-! ### Proof-side helpers -/

/-- The claims' side condition: a character is one of the four DNA bases. -/
def isDNAChar (c : Char) : Prop :=
  c = 'A' ∨ c = 'C' ∨ c = 'G' ∨ c = 'T'

instance (c : Char) : Decidable (isDNAChar c) := by
  unfold isDNAChar
  infer_instance

/-- Totalization of `complement`, used only to build witnesses for lists of
DNA characters; agrees with `complement` on ACGT. -/
def complementChar (c : Char) : Char :=
  if c = 'A' then 'T'
  else if c = 'C' then 'G'
  else if c = 'G' then 'C'
  else 'A'

/-- The claims' description of the Hamming distance: the number of
positions `i` below the length of the shorter operand at which the two
sequences hold different characters. -/
def hammingPrefix (s t : List Char) : Nat :=
  (List.range (min s.length t.length)).countP fun i => s[i]? != t[i]?

/-! ### Lemmas -/

theorem getline_rest_le (l : List Char) : (getline l).2.length ≤ l.length := by
  induction l with
  | nil => simp [getline]
  | cons c cs ih =>
    simp only [getline]
    split
    · simp
    · simpa using Nat.le_succ_of_le ih

theorem getline_rest_lt (c : Char) (cs : List Char) :
    (getline (c :: cs)).2.length < (c :: cs).length := by
  simp only [getline]
  split
  · simp
  · simpa using Nat.lt_succ_of_le (getline_rest_le cs)

theorem complement_eq {c : Char} (h : isDNAChar c) :
    complement c = some (complementChar c) := by
  rcases h with rfl | rfl | rfl | rfl <;> rfl

theorem complementChar_mem {c : Char} (h : isDNAChar c) :
    isDNAChar (complementChar c) := by
  rcases h with rfl | rfl | rfl | rfl <;> decide

theorem complementChar_invol {c : Char} (h : isDNAChar c) :
    complementChar (complementChar c) = c := by
  rcases h with rfl | rfl | rfl | rfl <;> rfl

theorem mapComplement_eq {l : List Char} (h : ∀ c ∈ l, isDNAChar c) :
    mapComplement l = some (l.map complementChar) := by
  induction l with
  | nil => rfl
  | cons c cs ih =>
    have hc := h c (List.mem_cons_self c cs)
    have hcs := ih fun x hx => h x (List.mem_cons_of_mem c hx)
    simp [mapComplement, complement_eq hc, hcs]

theorem Complement_eq {s : List Char} (h : ∀ c ∈ s, isDNAChar c) :
    Complement s = some (s.reverse.map complementChar) :=
  mapComplement_eq fun c hc => h c (List.mem_reverse.mp hc)

theorem DistanceLoop_some :
    ∀ (s t : List Char) (res : Nat), t ≠ [] →
      DistanceLoop s t res =
        some (res + ((s.zip t).countP fun p => p.1 != p.2))
  | [], _, _, _ => by simp [DistanceLoop]
  | _ :: _, [], _, ht => absurd rfl ht
  | c :: cs, o :: os, res, _ => by
    cases os with
    | nil => simp [DistanceLoop, List.countP_cons, bne_iff_ne]
    | cons o2 os2 =>
      have ih := DistanceLoop_some cs (o2 :: os2)
        (res + if c ≠ o then 1 else 0) (by simp)
      simp only [DistanceLoop, List.isEmpty_cons, Bool.false_eq_true,
        if_false, ih, List.zip_cons_cons, List.countP_cons,
        Option.some.injEq, bne_iff_ne]
      omega

theorem zip_countP_eq_hammingPrefix :
    ∀ s t : List Char,
      ((s.zip t).countP fun p => p.1 != p.2) = hammingPrefix s t
  | [], t => by simp [hammingPrefix]
  | c :: cs, [] => by simp [hammingPrefix]
  | c :: cs, o :: os => by
    have ih := zip_countP_eq_hammingPrefix cs os
    have hps : ((fun i => ((c :: cs)[i]? != (o :: os)[i]?)) ∘ Nat.succ)
        = fun i => cs[i]? != os[i]? := by
      funext i
      simp
    rw [List.zip_cons_cons, List.countP_cons, ih]
    simp only [hammingPrefix, List.length_cons, Nat.succ_min_succ,
      List.range_succ_eq_map, List.countP_cons, List.countP_map, hps,
      List.getElem?_cons_zero]
    congr 1

theorem zip_countP_comm :
    ∀ s t : List Char,
      ((s.zip t).countP fun p => p.1 != p.2)
        = ((t.zip s).countP fun p => p.1 != p.2)
  | [], t => by simp
  | c :: cs, [] => by simp
  | c :: cs, o :: os => by
    have ih := zip_countP_comm cs os
    simp only [List.zip_cons_cons, List.countP_cons, ih]
    congr 1
    have hbeq : (c == o) = (o == c) := by
      cases hco : c == o <;> cases hoc : o == c <;> simp_all
    simp only [bne, hbeq]

theorem readLoop_nil (seq : List Char) : readLoop [] seq = (seq, []) := by
  simp [readLoop]

theorem readLoop_gt (cs seq : List Char) :
    readLoop ('>' :: cs) seq = (seq, '>' :: cs) := by
  simp [readLoop]

theorem readLoop_line {c : Char} (cs seq : List Char) (h : c ≠ '>') :
    readLoop (c :: cs) seq =
      readLoop (getline (c :: cs)).2 (seq ++ (getline (c :: cs)).1) := by
  rw [readLoop]
  simp [h]

theorem collectLines_nil : collectLines [] = ([], []) := by
  simp [collectLines]

theorem collectLines_gt (cs : List Char) :
    collectLines ('>' :: cs) = ([], '>' :: cs) := by
  simp [collectLines]

theorem collectLines_line {c : Char} (cs : List Char) (h : c ≠ '>') :
    collectLines (c :: cs) =
      ((getline (c :: cs)).1 ++ (collectLines (getline (c :: cs)).2).1,
        (collectLines (getline (c :: cs)).2).2) := by
  rw [collectLines]
  simp [h]

/-- The read loop of `FASTA::Read` appends exactly the concatenation of
the lines up to the next record marker or end of stream, and leaves the
marker unconsumed. -/
theorem readLoop_eq_collect (stream seq : List Char) :
    readLoop stream seq =
      (seq ++ (collectLines stream).1, (collectLines stream).2) := by
  have key : ∀ (n : Nat) (stream seq : List Char), stream.length ≤ n →
      readLoop stream seq =
        (seq ++ (collectLines stream).1, (collectLines stream).2) := by
    intro n
    induction n with
    | zero =>
      intro stream seq h
      have hnil : stream = [] :=
        List.eq_nil_of_length_eq_zero (Nat.le_zero.mp h)
      subst hnil
      simp [readLoop_nil, collectLines_nil]
    | succ n ih =>
      intro stream seq h
      cases stream with
      | nil => simp [readLoop_nil, collectLines_nil]
      | cons c cs =>
        by_cases hc : c = '>'
        · subst hc
          simp [readLoop_gt, collectLines_gt]
        · rw [readLoop_line cs seq hc, collectLines_line cs hc]
          have hlen : (getline (c :: cs)).2.length ≤ n := by
            have := getline_rest_lt c cs
            simp only [List.length_cons] at this h
            omega
          rw [ih _ _ hlen]
          simp [List.append_assoc]
  exact key stream.length stream seq le_rfl

/-! ### Claims -/

/-- C1: for every DNA sequence `s` over {A,C,G,T}, `DNA::Complement()`
returns the reverse complement — a sequence of the same length whose i-th
character is the Watson-Crick pair (`complement`) of the (|s|-1-i)-th
character of `s` — and `Complement("AAAACCCGGT")` returns "ACCGGGTTTT". -/
theorem C1_reverse_complement :
    (∀ s : List Char, (∀ c ∈ s, isDNAChar c) →
      ∃ r, Complement s = some r ∧ r.length = s.length ∧
        ∀ i, i < s.length →
          r[i]? = (s[s.length - 1 - i]?).bind complement) ∧
    Complement "AAAACCCGGT".toList = some "ACCGGGTTTT".toList := by
  constructor
  · intro s h
    refine ⟨s.reverse.map complementChar, Complement_eq h, by simp, ?_⟩
    intro i hi
    have hlt : s.length - 1 - i < s.length := by omega
    rw [List.getElem?_map, List.getElem?_reverse (by simpa using hi),
      List.getElem?_eq_getElem hlt]
    simp [complement_eq (h _ (List.getElem_mem hlt))]
  · decide

/-- Witness for C1 at the concrete strand "ACGT". -/
theorem C1_reverse_complement_witness :
    ∃ r, Complement "ACGT".toList = some r ∧
      r.length = "ACGT".toList.length ∧
      ∀ i, i < "ACGT".toList.length →
        r[i]? = ("ACGT".toList["ACGT".toList.length - 1 - i]?).bind complement :=
  C1_reverse_complement.1 "ACGT".toList (by decide)

/-- C2: for nonempty `s` and `t`, `Strand::Distance` returns the number of
positions below the length of the shorter operand at which the sequences
differ (no penalty for the length mismatch), and the distance between
"GAGCCTACTAACGGGAT" and "CATCGTAATGACGGCCT" is 7. -/
theorem C2_hamming_distance :
    (∀ s t : List Char, s ≠ [] → t ≠ [] →
      Distance s t = some (hammingPrefix s t)) ∧
    Distance "GAGCCTACTAACGGGAT".toList "CATCGTAATGACGGCCT".toList
      = some 7 := by
  constructor
  · intro s t _ ht
    show DistanceLoop s t 0 = some (hammingPrefix s t)
    rw [DistanceLoop_some s t 0 ht, Nat.zero_add,
      zip_countP_eq_hammingPrefix]
  · decide

/-- Witness for C2 at the concrete strands "AC" and "AG". -/
theorem C2_hamming_distance_witness :
    Distance ['A', 'C'] ['A', 'G'] = some (hammingPrefix ['A', 'C'] ['A', 'G']) :=
  C2_hamming_distance.1 ['A', 'C'] ['A', 'G'] (by decide) (by decide)

/-- C3: the DNA↔RNA transcription constructors are length-preserving
pointwise substitutions (RNA←DNA replaces 'T' by 'U', DNA←RNA replaces
'U' by 'T', everything else passes through), and on DNA sequences over
{A,C,G,T} the round trip `DNA(RNA(s)) = s` holds. -/
theorem C3_transcription_round_trip :
    (∀ r : List Char, (DNA_ofRNA r).length = r.length) ∧
    (∀ d : List Char, (RNA_ofDNA d).length = d.length) ∧
    (∀ (r : List Char) (i : Nat),
      (DNA_ofRNA r)[i]? = (r[i]?).map fun c => if c = 'U' then 'T' else c) ∧
    (∀ (d : List Char) (i : Nat),
      (RNA_ofDNA d)[i]? = (d[i]?).map fun c => if c = 'T' then 'U' else c) ∧
    (∀ s : List Char, (∀ c ∈ s, isDNAChar c) →
      DNA_ofRNA (RNA_ofDNA s) = s) := by
  refine ⟨fun r => List.length_map .., fun d => List.length_map ..,
    fun r i => List.getElem?_map .., fun d i => List.getElem?_map .., ?_⟩
  intro s
  induction s with
  | nil => intro _; rfl
  | cons c cs ih =>
    intro h
    have hc : isDNAChar c := h c (List.mem_cons_self c cs)
    have hcs : DNA_ofRNA (RNA_ofDNA cs) = cs :=
      ih fun x hx => h x (List.mem_cons_of_mem c hx)
    have hhead : (fun x => if x = 'U' then 'T' else x)
        ((fun x => if x = 'T' then 'U' else x) c) = c := by
      rcases hc with rfl | rfl | rfl | rfl <;> rfl
    calc DNA_ofRNA (RNA_ofDNA (c :: cs))
        = (fun x => if x = 'U' then 'T' else x)
            ((fun x => if x = 'T' then 'U' else x) c)
            :: DNA_ofRNA (RNA_ofDNA cs) := rfl
      _ = c :: cs := by rw [hhead, hcs]

/-- Witness for C3's round trip at the concrete strand "GATTACA". -/
theorem C3_transcription_round_trip_witness :
    DNA_ofRNA (RNA_ofDNA "GATTACA".toList) = "GATTACA".toList :=
  C3_transcription_round_trip.2.2.2.2 "GATTACA".toList (by decide)

/-- C4: `FASTA::Read` fails with the format error exactly when the first
available character is not `>` (producing no record at all); on success it
consumes the `>`, takes the rest of the line as the identifier, and
appends the following lines to the sequence until the next `>` (left
unconsumed) or end of stream; on the stated two-record input it extracts
identifier "Rosalind_1" and sequence "ATGCGGTA". -/
theorem C4_fasta_read :
    (∀ (record : FASTA) (stream : List Char),
      (∃ e, FASTA.Read record stream = .error e) ↔
        stream.head? ≠ some '>') ∧
    (∀ (record : FASTA) (cs : List Char),
      FASTA.Read record ('>' :: cs) =
        .ok ({ id := (getline cs).1,
               sequence :=
                 record.sequence ++ (collectLines (getline cs).2).1 },
             (collectLines (getline cs).2).2)) ∧
    FASTA.Read ⟨[], []⟩ ">Rosalind_1\nATGC\nGGTA\n>Rosalind_2\n...".toList =
      .ok (⟨"Rosalind_1".toList, "ATGCGGTA".toList⟩,
        ">Rosalind_2\n...".toList) := by
  refine ⟨?_, ?_, ?_⟩
  · intro record stream
    cases stream with
    | nil => simp [FASTA.Read]
    | cons c cs =>
      by_cases hc : c = '>'
      · subst hc
        simp [FASTA.Read]
      · simp [FASTA.Read, hc]
  · intro record cs
    simp [FASTA.Read, readLoop_eq_collect]
  · simp [FASTA.Read, readLoop, getline]

/-- Witness for C4: a stream whose first character is not `>` makes
`FASTA::Read` fail. -/
theorem C4_fasta_read_witness :
    ∃ e, FASTA.Read ⟨[], []⟩ "ACGT".toList = Except.error e :=
  (C4_fasta_read.1 ⟨[], []⟩ "ACGT".toList).mpr (by decide)

/-- C5 counterexample: the recurrence helper at n = 5 with a = 1, b = 3
returns 43, not the 19 the claim states. -/
theorem C5_counterexample :
    fibonacci 5 1 3 = 43 ∧ fibonacci 5 1 3 ≠ 19 := by decide

/-- C5 (amended): the k = 3 rabbit case of the driver is invoked as
`fibonacci(n, k)`, which passes k as the weight `a`; with n = 5, a = 3,
b = 1 the helper returns 19. -/
theorem C5_fibonacci_rabbits : fibonacci 5 3 1 = 19 := by decide

/-- C6 counterexample: on the empty sequence `ContentGC` does not fail —
the source divides `0` by `length() = 0` with no guard and no throw, so
the embedding succeeds with the junk quotient (the silent NaN of the C++
float division). -/
theorem C6_counterexample :
    ContentGC [] = Except.ok 0 ∧ (ContentGC []).isOk = true := by
  constructor
  · simp [ContentGC, countGC]
  · rfl

/-- C6 (amended): for nonempty `s`, `ContentGC` returns exactly
(count of G + count of C) / length, a rational in [0,1]; for the empty
sequence the code silently yields the unguarded 0/0 quotient instead of
an explicit error. -/
theorem C6_gc_content :
    ∀ s : List Char, s ≠ [] →
      ContentGC s = .ok ((countGC s : ℚ) / (s.length : ℚ)) ∧
      ∀ q : ℚ, ContentGC s = .ok q → 0 ≤ q ∧ q ≤ 1 := by
  intro s hs
  refine ⟨rfl, ?_⟩
  intro q hq
  have hq2 : (countGC s : ℚ) / (s.length : ℚ) = q := by
    simp only [ContentGC, Except.ok.injEq] at hq
    exact hq
  subst hq2
  have hpos : (0 : ℚ) < (s.length : ℚ) := by
    have : 0 < s.length := List.length_pos.mpr hs
    exact_mod_cast this
  constructor
  · apply div_nonneg
    · exact Nat.cast_nonneg _
    · exact Nat.cast_nonneg _
  · rw [div_le_one hpos]
    exact_mod_cast List.countP_le_length _

/-- Witness for C6 (amended) at the concrete strand "GC". -/
theorem C6_gc_content_witness :
    ContentGC "GC".toList =
      .ok ((countGC "GC".toList : ℚ) / ("GC".toList.length : ℚ)) ∧
    ∀ q : ℚ, ContentGC "GC".toList = .ok q → 0 ≤ q ∧ q ≤ 1 :=
  C6_gc_content "GC".toList (by decide)

/-- C7: the `Protein` constructor is an unimplemented stub — the codon
table is declared but never applied, so translating the RNA "AUGGCCUAA"
(which the claim says must yield "MA") produces the empty protein. -/
theorem C7_protein_translation_stub :
    Protein_ofRNA "AUGGCCUAA".toList = [] := rfl

/-- C8 counterexample: for the nonempty strand "A", `Distance` against the
empty sequence dereferences the empty operand's past-the-end iterator
(`none` marks the out-of-range access) instead of yielding 0. -/
theorem C8_counterexample : Distance ['A'] [] = none := rfl

/-- C8 (amended): `empty.Distance(s)` yields 0 for every `s` with no
out-of-range access, but `s.Distance(empty)` for nonempty `s` dereferences
the empty operand's end iterator before the loop's break test, an
out-of-range element access. -/
theorem C8_distance_empty :
    (∀ s : List Char, Distance [] s = some 0) ∧
    (∀ s : List Char, s ≠ [] → Distance s [] = none) := by
  constructor
  · intro s
    rfl
  · intro s hs
    cases s with
    | nil => exact absurd rfl hs
    | cons c cs => rfl

/-- Witness for C8 (amended) at the concrete strand "G". -/
theorem C8_distance_empty_witness :
    (['G'] : List Char) ≠ [] ∧ Distance ['G'] [] = none :=
  ⟨by decide, C8_distance_empty.2 ['G'] (by decide)⟩

/-- C9: on DNA sequences over {A,C,G,T} the reverse complement is an
involution: `Complement(Complement(s)) = s`. -/
theorem C9_complement_involution :
    ∀ s : List Char, (∀ c ∈ s, isDNAChar c) →
      (Complement s).bind Complement = some s := by
  intro s h
  rw [Complement_eq h]
  have h2 : ∀ c ∈ s.reverse.map complementChar, isDNAChar c := by
    intro c hc
    rw [List.mem_map] at hc
    obtain ⟨a, ha, rfl⟩ := hc
    exact complementChar_mem (h a (List.mem_reverse.mp ha))
  show Complement (s.reverse.map complementChar) = some s
  rw [Complement_eq h2]
  simp only [List.map_reverse, List.reverse_reverse, List.map_map]
  have h4 : ∀ a ∈ s, (complementChar ∘ complementChar) a = id a :=
    fun a ha => complementChar_invol (h a ha)
  rw [List.map_congr_left h4, List.map_id]

/-- Witness for C9 at the concrete strand "AAAACCCGGT". -/
theorem C9_complement_involution_witness :
    (Complement "AAAACCCGGT".toList).bind Complement =
      some "AAAACCCGGT".toList :=
  C9_complement_involution "AAAACCCGGT".toList (by decide)

/-- C10: on nonempty operands `Strand::Distance` is symmetric — the
truncation to the shorter operand does not depend on operand order. -/
theorem C10_distance_symmetric :
    ∀ s t : List Char, s ≠ [] → t ≠ [] → Distance s t = Distance t s := by
  intro s t hs ht
  show DistanceLoop s t 0 = DistanceLoop t s 0
  rw [DistanceLoop_some s t 0 ht, DistanceLoop_some t s 0 hs,
    zip_countP_comm]

/-- Witness for C10 at the concrete strands "AT" and "T". -/
theorem C10_distance_symmetric_witness :
    Distance ['A', 'T'] ['T'] = Distance ['T'] ['A', 'T'] :=
  C10_distance_symmetric ['A', 'T'] ['T'] (by decide) (by decide)

end bio
